import Mathlib

/-!
# Verification of BookletDC file-housekeeping routines

Shallow embedding of the session/file lifecycle logic of the BookletDC
backend (`backend/api/pdf_api.py`, `backend/api/image_storage.py`):

* the PDF retention sweep `cleanup_old_pdfs`,
* the image post-processing stages of `ImageProcessor`
  (`apply_trim`, `enhance_image`, `generate_thumbnail`),
* the in-memory session store and its operations
  (`store_temporary_image`, `process_image`, `cleanup_session`,
  `cleanup_old_sessions`).

Filesystem state is modelled as a predicate `String → Bool` giving, for each
path, whether a file with that name currently exists; deleting a file flips
its entry to `false`.  Python exceptions that the code catches are modelled by
the corresponding handler branch (the functions here are total); where the
code's behaviour depends on an `os.unlink` that may fail, the failure pattern
is an explicit oracle argument `fails : String → Bool`.
-/

namespace BookletDC

/-! ## PDF retention (`backend/api/pdf_api.py`, `cleanup_old_pdfs`) -/

/-- One entry of the `pdf_files` list built by `get_recent_pdfs`: the
fields that `cleanup_old_pdfs` reads (`"filename"`) plus the creation time
(`"created_at"`, the file's `st_mtime`) that the caller sorts by. -/
structure PdfInfo where
  filename : String
  created_at : Int
deriving DecidableEq, Repr

/-- The filesystem: which path names currently exist as files. -/
abbrev FS := String → Bool

/-- `path.unlink()`: the file stops existing. -/
def fsDelete (fs : FS) (f : String) : FS :=
  fun g => if g = f then false else fs g

/-- Python's `str.replace`: replace every non-overlapping occurrence of
`pat`, scanning left to right.  Structural recursion on a fuel bounded by
the string length, so that it evaluates by kernel reduction.  (Python's
empty-pattern edge case — interspersing `rep` — is not modelled; every call
site in the code uses a non-empty pattern.) -/
def replaceLoop (pat rep : List Char) : Nat → List Char → List Char
  | _, [] => []
  | 0, s => s
  | fuel + 1, c :: rest =>
    if pat ≠ [] ∧ pat.isPrefixOf (c :: rest) then
      rep ++ replaceLoop pat rep fuel ((c :: rest).drop pat.length)
    else c :: replaceLoop pat rep fuel rest

/-- `s.replace(pat, rep)` on strings. -/
def pyReplace (s pat rep : String) : String :=
  ⟨replaceLoop pat.data rep.data s.data.length s.data⟩

/-- The metadata sidecar name: `filename.replace('.pdf', '.json')`. -/
def jsonSidecar (filename : String) : String :=
  pyReplace filename (".pdf") (".json")

/-- Body of the per-file `try` block inside `cleanup_old_pdfs`: delete the
PDF (if it exists) and bump `cleanup_count`, then delete the same-stem
`.json` sidecar (if it exists).  An `unlink` that raises (`fails` is true on
that path) aborts the rest of this file's block — the `except` clause logs
and `continue`s, leaving the state as it was at the raise. -/
def deleteOnePdf (fails : String → Bool) (st : FS × Nat) (filename : String) :
    FS × Nat :=
  let fs := st.1
  let count := st.2
  if fs filename then
    if fails filename then (fs, count)
    else
      let fs2 := fsDelete fs filename
      let count2 := count + 1
      let meta := jsonSidecar filename
      if fs2 meta then
        if fails meta then (fs2, count2) else (fsDelete fs2 meta, count2)
      else (fs2, count2)
  else
    -- the PDF is absent: no unlink, no count, but the metadata block still runs
    let meta := jsonSidecar filename
    if fs meta then
      if fails meta then (fs, count) else (fsDelete fs meta, count)
    else (fs, count)

/-- `cleanup_old_pdfs(pdf_dir, pdf_files, keep_count)`: if at most
`keep_count` files are listed, do nothing and return 0; otherwise walk
`pdf_files[keep_count:]` deleting each file and its sidecar, counting the
primary files actually unlinked.  Returns the final filesystem and
`cleanup_count`. -/
def cleanup_old_pdfs (fails : String → Bool) (fs : FS)
    (pdf_files : List PdfInfo) (keep_count : Nat) : FS × Nat :=
  if pdf_files.length ≤ keep_count then (fs, 0)
  else
    (pdf_files.drop keep_count).foldl
      (fun st fi => deleteOnePdf fails st fi.filename) (fs, 0)

/-- The fold that `cleanup_old_pdfs` performs over `files_to_delete`. -/
def retentionFold (fails : String → Bool) (L : List PdfInfo) (st : FS × Nat) :
    FS × Nat :=
  L.foldl (fun st fi => deleteOnePdf fails st fi.filename) st

/-! ### Concrete instances used in witness theorems -/

/-- A directory listing of three PDFs, newest first, distinct times. -/
def pdfsEx : List PdfInfo :=
  [⟨"c.pdf", 30⟩, ⟨"b.pdf", 20⟩, ⟨"a.pdf", 10⟩]

/-- A filesystem holding those PDFs and their sidecars. -/
def fsEx : FS := fun g =>
  decide (g ∈ (["c.pdf", "b.pdf", "a.pdf", "c.json", "b.json", "a.json"] :
    List String))

/-- A failure oracle: unlinking `b.pdf` raises, everything else succeeds. -/
def failsEx : String → Bool := fun g => decide (g = "b.pdf")

/-! ## Image post-processing (`backend/api/image_storage.py`,
`ImageProcessor`)

An image file is abstracted to its pixel dimensions; the image environment
maps a path to the image stored there (`none`: no readable image, so
`cv2.imread` returns `None` / `Image.open` raises).  Each stage returns the
updated environment and the path it hands back to the caller. -/

/-- A readable image file: `img.shape[:2] = (height, width)`. -/
structure ImgFile where
  width : Nat
  height : Nat
deriving DecidableEq, Repr

/-- The `trim_settings` dict: `top/bottom/left/right` margins (arbitrary
integers as parsed from JSON; the code clamps each with `max(0, ·)`). -/
structure TrimSettings where
  top : Int
  bottom : Int
  left : Int
  right : Int
deriving DecidableEq, Repr

/-- Which paths hold a readable image, and of what size. -/
abbrev ImgEnv := String → Option ImgFile

/-- `cv2.imwrite` / `img.save`: the written path now holds `img`. -/
def envWrite (env : ImgEnv) (path : String) (img : ImgFile) : ImgEnv :=
  fun g => if g = path then some img else env g

/-- `image_path.replace('.jpg', '_trimmed.jpg')`. -/
def trimmedPath (p : String) : String :=
  pyReplace p (".jpg") ("_trimmed.jpg")

/-- `image_path.replace('.jpg', '_enhanced.jpg')`. -/
def enhancedPath (p : String) : String :=
  pyReplace p (".jpg") ("_enhanced.jpg")

/-- `image_path.replace('.jpg', '_thumb.jpg')`. -/
def thumbPath (p : String) : String :=
  pyReplace p (".jpg") ("_thumb.jpg")

/-- `ImageProcessor.apply_trim`: read the image (an unreadable image raises
`ValueError`, caught by the `except`, which returns the original path);
clamp each margin to ≥ 0; inset the image bounds; if the rectangle is empty
or inverted, skip the trim and return the original path; otherwise write
the crop `img[y1:y2, x1:x2]` to the `_trimmed` path and return that path. -/
def apply_trim (env : ImgEnv) (image_path : String) (ts : TrimSettings) :
    ImgEnv × String :=
  match env image_path with
  | none => (env, image_path)
  | some img =>
    let top := max 0 ts.top
    let bottom := max 0 ts.bottom
    let left := max 0 ts.left
    let right := max 0 ts.right
    let y1 := top
    let y2 := (img.height : Int) - bottom
    let x1 := left
    let x2 := (img.width : Int) - right
    if y2 ≤ y1 ∨ x2 ≤ x1 then (env, image_path)
    else
      let processed_path := trimmedPath image_path
      (envWrite env processed_path ⟨(x2 - x1).toNat, (y2 - y1).toNat⟩,
        processed_path)

/-- `ImageProcessor.enhance_image`: an unreadable image returns the original
path; otherwise CLAHE is applied on the L channel (the dimensions are
unchanged) and the result is written to the `_enhanced` path. -/
def enhance_image (env : ImgEnv) (image_path : String) : ImgEnv × String :=
  match env image_path with
  | none => (env, image_path)
  | some img =>
    let enhanced_path := enhancedPath image_path
    (envWrite env enhanced_path img, enhanced_path)

/-- Dimensions produced by PIL `img.thumbnail((max_width, max_height))`:
the image is only ever shrunk, proportionally, to fit the box.  PIL's exact
rounding is not claim-relevant; the model keeps an image that already fits
and otherwise aspect-fits with floor division. -/
def thumbnailDims (img : ImgFile) (maxW maxH : Nat) : ImgFile :=
  if img.width ≤ maxW ∧ img.height ≤ maxH then img
  else
    ⟨min maxW (img.width * maxH / img.height),
     min maxH (img.height * maxW / img.width)⟩

/-- `ImageProcessor.generate_thumbnail`: a failing `Image.open` is caught
and the original path returned; otherwise the shrunk copy is saved to the
`_thumb` path. -/
def generate_thumbnail (env : ImgEnv) (image_path : String)
    (max_width max_height : Nat) : ImgEnv × String :=
  match env image_path with
  | none => (env, image_path)
  | some img =>
    let thumbnail_path := thumbPath image_path
    (envWrite env thumbnail_path (thumbnailDims img max_width max_height),
      thumbnail_path)

/-- A concrete image environment: one readable 100×100 image. -/
def envEx : ImgEnv := fun p =>
  if p = "img1.jpg" then some ⟨100, 100⟩ else none

/-! ## Session store (`backend/api/image_storage.py`)

`active_sessions` is a Python dict; it is modelled as an association list in
insertion order (a new key is appended at the end, as in a Python dict).
Timestamps (`datetime.now()`) are integers.  The per-session temporary
directory tree under `TEMP_STORAGE_DIR` is tracked at directory granularity
(`dirs`): `shutil.rmtree` removes the whole directory and everything in it.
A handler that raises `HTTPException` inside its `try` block has that
exception caught by the blanket `except Exception` and re-raised with
status 500, so the status that actually reaches the caller on any error
path of these handlers is 500. -/

/-- The outcome a handler delivers: a payload, or a raised HTTP status. -/
inductive ApiResult (α : Type) where
  | ok : α → ApiResult α
  | error : Nat → ApiResult α
deriving DecidableEq, Repr

/-- One element of a session's `images` list, as built by
`store_temporary_image` and mutated in place by `process_image`. -/
structure ImageRecord where
  id : String
  path : String
  metadata : String
  stored_at : Int
  processed_path : Option String
  thumbnail_path : Option String
  processed_at : Option Int
  trim_applied : Option Bool
  enhanced : Option Bool
deriving DecidableEq, Repr

/-- One value of `active_sessions`: `created`, `images`, `pdf_name`. -/
structure SessionInfo where
  created : Int
  images : List ImageRecord
  pdf_name : Option String
deriving DecidableEq, Repr

/-- The whole mutable state: `active_sessions` plus the on-disk session
directories. -/
structure StoreState where
  sessions : List (String × SessionInfo)
  dirs : String → Bool

/-- `session_id in active_sessions`. -/
def sessionsContains (sessions : List (String × SessionInfo))
    (sid : String) : Bool :=
  sessions.any (fun p => decide (p.1 = sid))

/-- `active_sessions[session_id]` (`none` when the key is absent). -/
def sessionsFind (sessions : List (String × SessionInfo)) (sid : String) :
    Option SessionInfo :=
  (sessions.find? (fun p => decide (p.1 = sid))).map Prod.snd

/-- `MAX_SESSION_AGE = timedelta(hours=2)`, in seconds. -/
def MAX_SESSION_AGE : Int := 7200

/-- `str(TEMP_STORAGE_DIR / session_id / (image_id + '.jpg'))`. -/
def imagePath (session_id image_id : String) : String :=
  "temp_images/" ++ session_id ++ "/" ++ image_id ++ ".jpg"

/-- `store_temporary_image`: a falsy (`None`/empty) session or image id is
rejected (`HTTPException(400)`, re-raised as 500 by the blanket `except`);
otherwise the session directory is created, the file written, a session
entry created if the key is absent (current timestamp, empty image list,
`pdf_name = None`), and the new image record appended to the session's
list. -/
def store_temporary_image (st : StoreState) (session_id image_id : String)
    (metadata : String) (now : Int) : StoreState × ApiResult String :=
  if session_id = "" ∨ image_id = "" then (st, .error 500)
  else
    let dirs2 := fun d => if d = session_id then true else st.dirs d
    let image_path := imagePath session_id image_id
    let newImage : ImageRecord :=
      ⟨image_id, image_path, metadata, now, none, none, none, none, none⟩
    let sessions1 :=
      if sessionsContains st.sessions session_id then st.sessions
      else st.sessions ++ [(session_id, ⟨now, [], none⟩)]
    let sessions2 := sessions1.map (fun p =>
      if p.1 = session_id then
        (p.1, ⟨p.2.created, p.2.images ++ [newImage], p.2.pdf_name⟩)
      else p)
    (⟨sessions2, dirs2⟩, .ok image_path)

/-- The in-place `image_info.update({...})` of `process_image`, applied to
the first record whose id matches (the loop binds the first match and
breaks). -/
def updateFirstImage (images : List ImageRecord) (image_id : String)
    (f : ImageRecord → ImageRecord) : List ImageRecord :=
  match images with
  | [] => []
  | img :: rest =>
    if img.id = image_id then f img :: rest
    else img :: updateFirstImage rest image_id f

/-- `process_image`: a missing session or missing image id raises
`HTTPException(404)` inside the `try`, which the blanket
`except Exception` catches and re-raises as status 500; otherwise the
stages run left to right on the stored path and the found record is
updated in place with the processed and thumbnail paths. -/
def process_image (env : ImgEnv) (st : StoreState)
    (session_id image_id : String) (trim_settings : Option TrimSettings)
    (enhance : Bool) (now : Int) :
    ImgEnv × StoreState × ApiResult (String × String) :=
  match sessionsFind st.sessions session_id with
  | none => (env, st, .error 500)
  | some session =>
    match session.images.find? (fun img => decide (img.id = image_id)) with
    | none => (env, st, .error 500)
    | some image_info =>
      let original_path := image_info.path
      let r1 :=
        match trim_settings with
        | some ts => apply_trim env original_path ts
        | none => (env, original_path)
      let r2 := if enhance then enhance_image r1.1 r1.2 else r1
      let r3 := generate_thumbnail r2.1 r2.2 150 190
      let images2 := updateFirstImage session.images image_id (fun img =>
        ⟨img.id, img.path, img.metadata, img.stored_at, some r2.2, some r3.2,
          some now, some trim_settings.isSome, some enhance⟩)
      let sessions2 := st.sessions.map (fun p =>
        if p.1 = session_id then (p.1, ⟨p.2.created, images2, p.2.pdf_name⟩)
        else p)
      (r3.1, ⟨sessions2, st.dirs⟩, .ok (r2.2, r3.2))

/-- `cleanup_session`: when the session is present, remove its directory
tree and its `active_sessions` entry; in every case the handler replies
`{"success": True}`. -/
def cleanup_session (st : StoreState) (session_id : String) :
    StoreState × Bool :=
  if sessionsContains st.sessions session_id then
    (⟨st.sessions.filter (fun p => !decide (p.1 = session_id)),
      fun d => if d = session_id then false else st.dirs d⟩, true)
  else (st, true)

/-- `cleanup_old_sessions`: collect the ids of the sessions whose age
`now - created` strictly exceeds `max_age` (the code uses
`MAX_SESSION_AGE`), delete each with `cleanup_session`, and report how
many ids were collected. -/
def cleanup_old_sessions (st : StoreState) (now max_age : Int) :
    StoreState × Nat :=
  let sessions_to_remove :=
    (st.sessions.filter (fun p => decide (max_age < now - p.2.created))).map
      Prod.fst
  (sessions_to_remove.foldl (fun s sid => (cleanup_session s sid).1) st,
    sessions_to_remove.length)

/-- The per-session invariant of claim C9: image ids are pairwise
distinct. -/
def imagesIdsNodup (st : StoreState) : Prop :=
  ∀ p ∈ st.sessions, (p.2.images.map ImageRecord.id).Nodup

/-! ### Concrete session-store instances for witnesses/counterexamples -/

/-- The store before any upload. -/
def emptyStore : StoreState := ⟨[], fun _ => false⟩

/-- A store with one session `s1` holding one image `a1`. -/
def storeEx1 : StoreState :=
  ⟨[("s1", ⟨0, [⟨"a1", imagePath ("s1") ("a1"), "m", 0,
      none, none, none, none, none⟩], none⟩)],
    fun d => decide (d = "s1")⟩

/-- Two sessions created at 0 and 100, for the expiry-boundary witness. -/
def storeExpiry : StoreState :=
  ⟨[("s1", ⟨0, [], none⟩), ("s2", ⟨100, [], none⟩)], fun _ => false⟩

lemma deleteOnePdf_fst_false (fails : String → Bool) (st : FS × Nat)
    (f g : String) (h : st.1 g = false) :
    (deleteOnePdf fails st f).1 g = false := by
  obtain ⟨fs, c⟩ := st
  simp only [deleteOnePdf]
  split_ifs <;> simp_all [fsDelete]

lemma deleteOnePdf_frame (fails : String → Bool) (st : FS × Nat)
    (f g : String) (h1 : g ≠ f) (h2 : g ≠ jsonSidecar f) :
    (deleteOnePdf fails st f).1 g = st.1 g := by
  obtain ⟨fs, c⟩ := st
  simp only [deleteOnePdf]
  split_ifs <;> simp_all [fsDelete]

lemma deleteOnePdf_self_del (fails : String → Bool) (st : FS × Nat)
    (f : String) (hf : fails f = false) :
    (deleteOnePdf fails st f).1 f = false := by
  obtain ⟨fs, c⟩ := st
  simp only [deleteOnePdf]
  split_ifs <;> simp_all [fsDelete]

lemma deleteOnePdf_self_meta (fails : String → Bool) (st : FS × Nat)
    (f : String) (hf : fails f = false) (hm : fails (jsonSidecar f) = false) :
    (deleteOnePdf fails st f).1 (jsonSidecar f) = false := by
  obtain ⟨fs, c⟩ := st
  simp only [deleteOnePdf]
  split_ifs <;> simp_all [fsDelete]

lemma deleteOnePdf_self_keep (fails : String → Bool) (st : FS × Nat)
    (f : String) (hf : fails f = true) :
    (deleteOnePdf fails st f).1 f = st.1 f := by
  obtain ⟨fs, c⟩ := st
  simp only [deleteOnePdf]
  split_ifs <;> simp_all [fsDelete]

lemma deleteOnePdf_snd (fails : String → Bool) (fs : FS) (c : Nat) (f : String) :
    (deleteOnePdf fails (fs, c) f).2 =
      c + (if fs f = true ∧ fails f = false then 1 else 0) := by
  simp only [deleteOnePdf, fsDelete]
  split_ifs <;> simp_all

lemma retentionFold_nil (fails : String → Bool) (st : FS × Nat) :
    retentionFold fails [] st = st := rfl

lemma retentionFold_cons (fails : String → Bool) (hd : PdfInfo)
    (tl : List PdfInfo) (st : FS × Nat) :
    retentionFold fails (hd :: tl) st =
      retentionFold fails tl (deleteOnePdf fails st hd.filename) := rfl

lemma retentionFold_pair (fails : String → Bool) (L : List PdfInfo)
    (st : FS × Nat) :
    retentionFold fails L st = retentionFold fails L (st.1, st.2) := by
  rfl

lemma retentionFold_fst_false (fails : String → Bool) (L : List PdfInfo)
    (st : FS × Nat) (g : String) (h : st.1 g = false) :
    (retentionFold fails L st).1 g = false := by
  induction L generalizing st with
  | nil => simpa [retentionFold_nil] using h
  | cons hd tl ih =>
    rw [retentionFold_cons]
    exact ih _ (deleteOnePdf_fst_false fails st hd.filename g h)

lemma retentionFold_frame (fails : String → Bool) (L : List PdfInfo)
    (st : FS × Nat) (g : String)
    (h : ∀ fi ∈ L, g ≠ fi.filename ∧ g ≠ jsonSidecar fi.filename) :
    (retentionFold fails L st).1 g = st.1 g := by
  induction L generalizing st with
  | nil => rw [retentionFold_nil]
  | cons hd tl ih =>
    rw [retentionFold_cons]
    have hhd := h hd (by simp)
    rw [ih _ fun fi hfi => h fi (by simp [hfi])]
    exact deleteOnePdf_frame fails st hd.filename g hhd.1 hhd.2

lemma retentionFold_snd (fails : String → Bool) (L : List PdfInfo)
    (fs : FS) (c : Nat)
    (nodup : (L.map PdfInfo.filename).Nodup)
    (disj : ∀ a ∈ L, ∀ b ∈ L, jsonSidecar a.filename ≠ b.filename) :
    (retentionFold fails L (fs, c)).2 =
      c + L.countP (fun fi => fs fi.filename && !fails fi.filename) := by
  induction L generalizing fs c with
  | nil => simp [retentionFold_nil]
  | cons hd tl ih =>
    rw [retentionFold_cons, retentionFold_pair]
    have hframe : ∀ fi ∈ tl,
        (deleteOnePdf fails (fs, c) hd.filename).1 fi.filename =
          fs fi.filename := by
      intro fi hfi
      have h1 : fi.filename ≠ hd.filename := by
        intro hcontr
        have := nodup
        simp only [List.map_cons, List.nodup_cons] at this
        exact this.1 (hcontr ▸ List.mem_map_of_mem PdfInfo.filename hfi)
      have h2 : fi.filename ≠ jsonSidecar hd.filename :=
        fun hcontr => disj hd (by simp) fi (by simp [hfi]) hcontr.symm
      exact deleteOnePdf_frame fails (fs, c) hd.filename fi.filename h1 h2
    rw [ih (deleteOnePdf fails (fs, c) hd.filename).1
          (deleteOnePdf fails (fs, c) hd.filename).2
          (by simpa using nodup.of_cons)
          (fun a ha b hb => disj a (by simp [ha]) b (by simp [hb]))]
    rw [List.countP_congr
          (fun fi hfi => by rw [hframe fi hfi]),
        deleteOnePdf_snd, List.countP_cons]
    rcases Bool.eq_false_or_eq_true (fs hd.filename) with h | h <;>
      rcases Bool.eq_false_or_eq_true (fails hd.filename) with h' | h' <;>
      simp [h, h'] <;> omega

lemma retentionFold_deleted_file (fails : String → Bool) (L : List PdfInfo)
    (st : FS × Nat) :
    ∀ fi ∈ L, fails fi.filename = false →
      (retentionFold fails L st).1 fi.filename = false := by
  induction L generalizing st with
  | nil => intro fi hfi; simp at hfi
  | cons hd tl ih =>
    intro fi hfi hfail
    rw [retentionFold_cons]
    rcases List.mem_cons.mp hfi with h | h
    · subst h
      exact retentionFold_fst_false fails tl _ fi.filename
        (deleteOnePdf_self_del fails st fi.filename hfail)
    · exact ih _ fi h hfail

lemma retentionFold_deleted_meta (fails : String → Bool) (L : List PdfInfo)
    (st : FS × Nat) :
    ∀ fi ∈ L, fails fi.filename = false →
      fails (jsonSidecar fi.filename) = false →
      (retentionFold fails L st).1 (jsonSidecar fi.filename) = false := by
  induction L generalizing st with
  | nil => intro fi hfi; simp at hfi
  | cons hd tl ih =>
    intro fi hfi hfail hmeta
    rw [retentionFold_cons]
    rcases List.mem_cons.mp hfi with h | h
    · subst h
      exact retentionFold_fst_false fails tl _ (jsonSidecar fi.filename)
        (deleteOnePdf_self_meta fails st fi.filename hfail hmeta)
    · exact ih _ fi h hfail hmeta

lemma retentionFold_keep_failed (fails : String → Bool) (L : List PdfInfo)
    (st : FS × Nat)
    (nodup : (L.map PdfInfo.filename).Nodup)
    (disj : ∀ a ∈ L, ∀ b ∈ L, jsonSidecar a.filename ≠ b.filename) :
    ∀ fi ∈ L, fails fi.filename = true →
      (retentionFold fails L st).1 fi.filename = st.1 fi.filename := by
  induction L generalizing st with
  | nil => intro fi hfi; simp at hfi
  | cons hd tl ih =>
    intro fi hfi hfail
    rw [retentionFold_cons]
    rcases List.mem_cons.mp hfi with h | h
    · subst h
      have hframe : ∀ fj ∈ tl,
          fi.filename ≠ fj.filename ∧ fi.filename ≠ jsonSidecar fj.filename := by
        intro fj hfj
        constructor
        · intro hcontr
          have := nodup
          simp only [List.map_cons, List.nodup_cons] at this
          exact this.1 (hcontr ▸ List.mem_map_of_mem PdfInfo.filename hfj)
        · exact fun hcontr =>
            disj fj (by simp [hfj]) fi (by simp) hcontr.symm
      rw [retentionFold_frame fails tl _ fi.filename hframe]
      exact deleteOnePdf_self_keep fails st fi.filename hfail
    · have h1 : fi.filename ≠ hd.filename := by
        intro hcontr
        have := nodup
        simp only [List.map_cons, List.nodup_cons] at this
        exact this.1 (hcontr ▸ List.mem_map_of_mem PdfInfo.filename h)
      have h2 : fi.filename ≠ jsonSidecar hd.filename :=
        fun hcontr => disj hd (by simp) fi (by simp [h]) hcontr.symm
      rw [ih _ (by simpa using nodup.of_cons)
            (fun a ha b hb => disj a (by simp [ha]) b (by simp [hb])) fi h hfail]
      exact deleteOnePdf_frame fails st hd.filename fi.filename h1 h2

/-- C1: given N listed PDF files with pairwise-distinct creation times,
sorted newest first, and a keep-count K < N, with every listed file present
and no unlink failing, `cleanup_old_pdfs` reports exactly N − K deletions;
every file beyond index K is deleted together with its `.json` sidecar;
every file among the first K remains; and each deleted file is strictly
older than each kept one. -/
theorem cleanup_old_pdfs_retention (fs : FS) (pdf_files : List PdfInfo)
    (K : Nat)
    (hsort : pdf_files.Pairwise (fun a b => b.created_at < a.created_at))
    (hK : K < pdf_files.length)
    (hnodup : (pdf_files.map PdfInfo.filename).Nodup)
    (hdisj : ∀ a ∈ pdf_files, ∀ b ∈ pdf_files,
      jsonSidecar a.filename ≠ b.filename)
    (hpresent : ∀ fi ∈ pdf_files, fs fi.filename = true) :
    (cleanup_old_pdfs (fun _ => false) fs pdf_files K).2 =
        pdf_files.length - K ∧
    (∀ fi ∈ pdf_files.drop K,
      (cleanup_old_pdfs (fun _ => false) fs pdf_files K).1 fi.filename
          = false ∧
      (cleanup_old_pdfs (fun _ => false) fs pdf_files K).1
          (jsonSidecar fi.filename) = false) ∧
    (∀ fi ∈ pdf_files.take K,
      (cleanup_old_pdfs (fun _ => false) fs pdf_files K).1 fi.filename
          = true) ∧
    (∀ fi ∈ pdf_files.take K, ∀ fj ∈ pdf_files.drop K,
      fj.created_at < fi.created_at) := by
  have hnot : ¬ (pdf_files.length ≤ K) := not_le.mpr hK
  have hr : cleanup_old_pdfs (fun _ => false) fs pdf_files K =
      retentionFold (fun _ => false) (pdf_files.drop K) (fs, 0) := by
    simp only [cleanup_old_pdfs, if_neg hnot]
    rfl
  have ndrop : ((pdf_files.drop K).map PdfInfo.filename).Nodup := by
    rw [List.map_drop]
    exact hnodup.sublist (List.drop_sublist K _)
  have ddrop : ∀ a ∈ pdf_files.drop K, ∀ b ∈ pdf_files.drop K,
      jsonSidecar a.filename ≠ b.filename :=
    fun a ha b hb =>
      hdisj a (List.mem_of_mem_drop ha) b (List.mem_of_mem_drop hb)
  refine ⟨?_, ?_, ?_, ?_⟩
  · rw [hr, retentionFold_snd _ _ _ _ ndrop ddrop]
    have hall : ∀ fi ∈ pdf_files.drop K,
        (fs fi.filename && !(fun _ : String => false) fi.filename) = true := by
      intro fi hfi
      simp [hpresent fi (List.mem_of_mem_drop hfi)]
    rw [List.countP_eq_length.mpr hall, List.length_drop]
    omega
  · intro fi hfi
    rw [hr]
    exact ⟨retentionFold_deleted_file _ _ _ fi hfi rfl,
      retentionFold_deleted_meta _ _ _ fi hfi rfl rfl⟩
  · intro fi hfi
    rw [hr]
    have hsplit : pdf_files.take K ++ pdf_files.drop K = pdf_files :=
      List.take_append_drop K pdf_files
    have hnodup2 : ((pdf_files.take K).map PdfInfo.filename ++
        (pdf_files.drop K).map PdfInfo.filename).Nodup := by
      rw [← List.map_append, hsplit]
      exact hnodup
    have hdisjnames := (List.nodup_append.mp hnodup2).2.2
    have hframe : ∀ fj ∈ pdf_files.drop K,
        fi.filename ≠ fj.filename ∧ fi.filename ≠ jsonSidecar fj.filename := by
      intro fj hfj
      refine ⟨?_, ?_⟩
      · intro hcontr
        exact hdisjnames (List.mem_map_of_mem PdfInfo.filename hfi)
          (hcontr ▸ List.mem_map_of_mem PdfInfo.filename hfj)
      · exact fun hcontr =>
          hdisj fj (List.mem_of_mem_drop hfj) fi (List.mem_of_mem_take hfi)
            hcontr.symm
    rw [retentionFold_frame _ _ _ _ hframe]
    exact hpresent fi (List.mem_of_mem_take hfi)
  · intro fi hfi fj hfj
    have hsplit : pdf_files.take K ++ pdf_files.drop K = pdf_files :=
      List.take_append_drop K pdf_files
    rw [← hsplit] at hsort
    exact (List.pairwise_append.mp hsort).2.2 fi hfi fj hfj

/-- Witness for C1: three PDFs (with sidecars) and keep-count 1 — the sweep
deletes the two oldest and their sidecars, keeps the newest, and reports 2
deletions. -/
theorem cleanup_old_pdfs_retention_witness :
    (1 < pdfsEx.length) ∧
    ((cleanup_old_pdfs (fun _ => false) fsEx pdfsEx 1).2 =
        pdfsEx.length - 1 ∧
    (∀ fi ∈ pdfsEx.drop 1,
      (cleanup_old_pdfs (fun _ => false) fsEx pdfsEx 1).1 fi.filename
          = false ∧
      (cleanup_old_pdfs (fun _ => false) fsEx pdfsEx 1).1
          (jsonSidecar fi.filename) = false) ∧
    (∀ fi ∈ pdfsEx.take 1,
      (cleanup_old_pdfs (fun _ => false) fsEx pdfsEx 1).1 fi.filename
          = true) ∧
    (∀ fi ∈ pdfsEx.take 1, ∀ fj ∈ pdfsEx.drop 1,
      fj.created_at < fi.created_at)) :=
  ⟨by decide,
    cleanup_old_pdfs_retention fsEx pdfsEx 1 (by decide) (by decide)
      (by decide) (by decide) (by decide)⟩

/-- C2: for every file list and keep-count (given distinct filenames whose
sidecars clash with no listed file), the sweep's return value equals the
number of primary PDF files that were present before and absent after —
sidecar deletions are not counted; a file whose unlink raises is skipped
(it survives) while every other file beyond the keep-count is still
deleted, and the files within the keep-count are untouched.  The sweep
itself is a total function: every raise is caught inside it. -/
theorem cleanup_old_pdfs_count_skip (fails : String → Bool) (fs : FS)
    (pdf_files : List PdfInfo) (K : Nat)
    (hnodup : (pdf_files.map PdfInfo.filename).Nodup)
    (hdisj : ∀ a ∈ pdf_files, ∀ b ∈ pdf_files,
      jsonSidecar a.filename ≠ b.filename) :
    (cleanup_old_pdfs fails fs pdf_files K).2 =
      (pdf_files.drop K).countP
        (fun fi => fs fi.filename &&
          !((cleanup_old_pdfs fails fs pdf_files K).1 fi.filename)) ∧
    (∀ fi ∈ pdf_files.take K,
      (cleanup_old_pdfs fails fs pdf_files K).1 fi.filename
        = fs fi.filename) ∧
    (∀ fi ∈ pdf_files.drop K, fails fi.filename = true →
      (cleanup_old_pdfs fails fs pdf_files K).1 fi.filename
        = fs fi.filename) ∧
    (∀ fi ∈ pdf_files.drop K, fails fi.filename = false →
      (cleanup_old_pdfs fails fs pdf_files K).1 fi.filename = false) := by
  by_cases hle : pdf_files.length ≤ K
  · have hdropnil : pdf_files.drop K = [] := List.drop_eq_nil_of_le hle
    have hr : cleanup_old_pdfs fails fs pdf_files K = (fs, 0) := by
      simp [cleanup_old_pdfs, hle]
    rw [hr, hdropnil]
    exact ⟨rfl, fun fi _ => rfl, fun fi hfi => by simp at hfi,
      fun fi hfi => by simp at hfi⟩
  · have hr : cleanup_old_pdfs fails fs pdf_files K =
        retentionFold fails (pdf_files.drop K) (fs, 0) := by
      simp only [cleanup_old_pdfs, if_neg hle]
      rfl
    have ndrop : ((pdf_files.drop K).map PdfInfo.filename).Nodup := by
      rw [List.map_drop]
      exact hnodup.sublist (List.drop_sublist K _)
    have ddrop : ∀ a ∈ pdf_files.drop K, ∀ b ∈ pdf_files.drop K,
        jsonSidecar a.filename ≠ b.filename :=
      fun a ha b hb =>
        hdisj a (List.mem_of_mem_drop ha) b (List.mem_of_mem_drop hb)
    have hkeepfail : ∀ fi ∈ pdf_files.drop K, fails fi.filename = true →
        (cleanup_old_pdfs fails fs pdf_files K).1 fi.filename
          = fs fi.filename := by
      intro fi hfi hfail
      rw [hr]
      exact retentionFold_keep_failed fails _ _ ndrop ddrop fi hfi hfail
    have hdel : ∀ fi ∈ pdf_files.drop K, fails fi.filename = false →
        (cleanup_old_pdfs fails fs pdf_files K).1 fi.filename = false := by
      intro fi hfi hfail
      rw [hr]
      exact retentionFold_deleted_file fails _ _ fi hfi hfail
    refine ⟨?_, ?_, hkeepfail, hdel⟩
    · rw [hr, retentionFold_snd _ _ _ _ ndrop ddrop]
      rw [Nat.zero_add]
      refine List.countP_congr ?_
      intro fi hfi
      rcases Bool.eq_false_or_eq_true (fails fi.filename) with hfail | hfail
      · have := hkeepfail fi hfi hfail
        rw [hr] at this
        rcases Bool.eq_false_or_eq_true (fs fi.filename) with hfs | hfs <;>
          simp [hfail, hfs, this]
      · have := hdel fi hfi hfail
        rw [hr] at this
        simp [hfail, this]
    · intro fi hfi
      rw [hr]
      have hsplit : pdf_files.take K ++ pdf_files.drop K = pdf_files :=
        List.take_append_drop K pdf_files
      have hnodup2 : ((pdf_files.take K).map PdfInfo.filename ++
          (pdf_files.drop K).map PdfInfo.filename).Nodup := by
        rw [← List.map_append, hsplit]
        exact hnodup
      have hdisjnames := (List.nodup_append.mp hnodup2).2.2
      refine retentionFold_frame _ _ _ _ ?_
      intro fj hfj
      refine ⟨?_, ?_⟩
      · intro hcontr
        exact hdisjnames (List.mem_map_of_mem PdfInfo.filename hfi)
          (hcontr ▸ List.mem_map_of_mem PdfInfo.filename hfj)
      · exact fun hcontr =>
          hdisj fj (List.mem_of_mem_drop hfj) fi (List.mem_of_mem_take hfi)
            hcontr.symm

/-- Witness for C2: with keep-count 1 and an oracle making the unlink of
`b.pdf` raise, the sweep still deletes `a.pdf`, keeps `b.pdf` and `c.pdf`,
and reports exactly the one primary file actually deleted. -/
theorem cleanup_old_pdfs_count_skip_witness :
    ((pdfsEx.map PdfInfo.filename).Nodup) ∧
    ((cleanup_old_pdfs failsEx fsEx pdfsEx 1).2 =
      (pdfsEx.drop 1).countP
        (fun fi => fsEx fi.filename &&
          !((cleanup_old_pdfs failsEx fsEx pdfsEx 1).1 fi.filename)) ∧
    (∀ fi ∈ pdfsEx.take 1,
      (cleanup_old_pdfs failsEx fsEx pdfsEx 1).1 fi.filename
        = fsEx fi.filename) ∧
    (∀ fi ∈ pdfsEx.drop 1, failsEx fi.filename = true →
      (cleanup_old_pdfs failsEx fsEx pdfsEx 1).1 fi.filename
        = fsEx fi.filename) ∧
    (∀ fi ∈ pdfsEx.drop 1, failsEx fi.filename = false →
      (cleanup_old_pdfs failsEx fsEx pdfsEx 1).1 fi.filename = false)) :=
  ⟨by decide,
    cleanup_old_pdfs_count_skip failsEx fsEx pdfsEx 1 (by decide) (by decide)⟩

/-- C3: for a readable W×H image and margins clamped to ≥ 0: when the
clamped margins sum below the corresponding dimension, `apply_trim` writes
a `(W−left−right) × (H−top−bottom)` image at the `_trimmed` path and
returns that path; when a clamped margin pair reaches the dimension, it is
a no-op returning the original path with the environment unchanged. -/
theorem apply_trim_dims (env : ImgEnv) (img : ImgFile) (path : String)
    (ts : TrimSettings) (hread : env path = some img) :
    ((max 0 ts.left + max 0 ts.right < (img.width : Int) ∧
      max 0 ts.top + max 0 ts.bottom < (img.height : Int)) →
      (apply_trim env path ts).2 = trimmedPath path ∧
      (apply_trim env path ts).1 (trimmedPath path) =
        some ⟨((img.width : Int) - max 0 ts.left - max 0 ts.right).toNat,
              ((img.height : Int) - max 0 ts.top - max 0 ts.bottom).toNat⟩) ∧
    (((img.width : Int) ≤ max 0 ts.left + max 0 ts.right ∨
      (img.height : Int) ≤ max 0 ts.top + max 0 ts.bottom) →
      apply_trim env path ts = (env, path)) := by
  constructor
  · rintro ⟨h1, h2⟩
    have hcond : ¬((img.height : Int) - max 0 ts.bottom ≤ max 0 ts.top ∨
        (img.width : Int) - max 0 ts.right ≤ max 0 ts.left) := by omega
    have hw : (img.width : Int) - max 0 ts.right - max 0 ts.left =
        (img.width : Int) - max 0 ts.left - max 0 ts.right := by ring
    have hh : (img.height : Int) - max 0 ts.bottom - max 0 ts.top =
        (img.height : Int) - max 0 ts.top - max 0 ts.bottom := by ring
    refine ⟨?_, ?_⟩
    · simp only [apply_trim, hread, if_neg hcond]
    · simp only [apply_trim, hread, if_neg hcond]
      simp [envWrite, hw, hh]
  · intro h
    have hcond : ((img.height : Int) - max 0 ts.bottom ≤ max 0 ts.top ∨
        (img.width : Int) - max 0 ts.right ≤ max 0 ts.left) := by omega
    simp only [apply_trim, hread, if_pos hcond]

/-- Witness for C3: a 100×100 image with margins {top 10, bottom 10,
left 0, right 0} trims to 100×80 at the `_trimmed` path; margins
{top 60, bottom 60} leave everything unchanged. -/
theorem apply_trim_dims_witness :
    (envEx ("img1.jpg") = some ⟨100, 100⟩) ∧
    (((max 0 (⟨10, 10, 0, 0⟩ : TrimSettings).left +
        max 0 (⟨10, 10, 0, 0⟩ : TrimSettings).right < ((100 : Nat) : Int) ∧
      max 0 (⟨10, 10, 0, 0⟩ : TrimSettings).top +
        max 0 (⟨10, 10, 0, 0⟩ : TrimSettings).bottom < ((100 : Nat) : Int)) →
      (apply_trim envEx ("img1.jpg") ⟨10, 10, 0, 0⟩).2 =
          trimmedPath ("img1.jpg") ∧
      (apply_trim envEx ("img1.jpg") ⟨10, 10, 0, 0⟩).1
          (trimmedPath ("img1.jpg")) =
        some ⟨(((100 : Nat) : Int) - max 0 (⟨10, 10, 0, 0⟩ : TrimSettings).left -
                max 0 (⟨10, 10, 0, 0⟩ : TrimSettings).right).toNat,
              (((100 : Nat) : Int) - max 0 (⟨10, 10, 0, 0⟩ : TrimSettings).top -
                max 0 (⟨10, 10, 0, 0⟩ : TrimSettings).bottom).toNat⟩) ∧
    ((((100 : Nat) : Int) ≤ max 0 (⟨10, 10, 0, 0⟩ : TrimSettings).left +
        max 0 (⟨10, 10, 0, 0⟩ : TrimSettings).right ∨
      ((100 : Nat) : Int) ≤ max 0 (⟨10, 10, 0, 0⟩ : TrimSettings).top +
        max 0 (⟨10, 10, 0, 0⟩ : TrimSettings).bottom) →
      apply_trim envEx ("img1.jpg") ⟨10, 10, 0, 0⟩ = (envEx, "img1.jpg"))) :=
  ⟨by decide, apply_trim_dims envEx ⟨100, 100⟩ ("img1.jpg") ⟨10, 10, 0, 0⟩
    (by decide)⟩

/-- C4: each post-processing stage degrades rather than raising: on an
unreadable input every stage returns the original path and leaves the
environment untouched, and `apply_trim` on an empty or inverted crop
rectangle does the same.  (Each stage is a total function: the `except`
blocks of the code are built into the definitions, so no call ever
propagates an exception.) -/
theorem image_processor_degrades (env : ImgEnv) (path : String)
    (ts : TrimSettings) :
    (env path = none →
      apply_trim env path ts = (env, path) ∧
      enhance_image env path = (env, path) ∧
      generate_thumbnail env path 150 190 = (env, path)) ∧
    (∀ img, env path = some img →
      ((img.height : Int) - max 0 ts.bottom ≤ max 0 ts.top ∨
       (img.width : Int) - max 0 ts.right ≤ max 0 ts.left) →
      apply_trim env path ts = (env, path)) := by
  constructor
  · intro hnone
    exact ⟨by simp [apply_trim, hnone], by simp [enhance_image, hnone],
      by simp [generate_thumbnail, hnone]⟩
  · intro img hread hcond
    simp only [apply_trim, hread, if_pos hcond]

/-- Witness for C4: the stages at the unreadable path `missing.jpg` all
return it unchanged, and a 100×100 image with a 60+60 vertical trim is a
no-op. -/
theorem image_processor_degrades_witness :
    (envEx ("missing.jpg") = none ∧
      apply_trim envEx ("missing.jpg") ⟨10, 10, 0, 0⟩ =
        (envEx, "missing.jpg") ∧
      enhance_image envEx ("missing.jpg") = (envEx, "missing.jpg") ∧
      generate_thumbnail envEx ("missing.jpg") 150 190 =
        (envEx, "missing.jpg")) ∧
    (envEx ("img1.jpg") = some ⟨100, 100⟩ ∧
      apply_trim envEx ("img1.jpg") ⟨60, 60, 0, 0⟩ = (envEx, "img1.jpg")) :=
  ⟨⟨by decide,
    (image_processor_degrades envEx ("missing.jpg") ⟨10, 10, 0, 0⟩).1
      (by decide)⟩,
   ⟨by decide,
    (image_processor_degrades envEx ("img1.jpg") ⟨60, 60, 0, 0⟩).2
      ⟨100, 100⟩ (by decide) (by decide)⟩⟩

/-! ### Session-store lemmas -/

lemma cleanup_session_sessions (st : StoreState) (sid : String) :
    ((cleanup_session st sid).1).sessions =
      st.sessions.filter (fun p => !decide (p.1 = sid)) := by
  by_cases h : sessionsContains st.sessions sid = true
  · simp [cleanup_session, h]
  · have hb : sessionsContains st.sessions sid = false := by
      simpa using h
    have hall : ∀ p ∈ st.sessions, (!decide (p.1 = sid)) = true := by
      intro p hp
      simp only [sessionsContains, List.any_eq_false] at hb
      simpa using hb p hp
    simp only [cleanup_session, hb]
    rw [List.filter_eq_self.mpr hall]
    simp

lemma cleanup_session_contains_false (st : StoreState) (sid : String) :
    sessionsContains ((cleanup_session st sid).1).sessions sid = false := by
  rw [cleanup_session_sessions]
  simp [sessionsContains, List.any_eq_false, List.mem_filter]

lemma cleanup_session_absent (st : StoreState) (sid : String)
    (h : sessionsContains st.sessions sid = false) :
    cleanup_session st sid = (st, true) := by
  simp [cleanup_session, h]

/-- C6: `cleanup_session` always replies success; when the session is
present it removes both the in-memory entry and the on-disk directory; and
it is idempotent — a second call on the already-deleted session is a no-op
that also succeeds, so the state after two deletes equals the state after
one. -/
theorem cleanup_session_idempotent (st : StoreState) (sid : String) :
    (cleanup_session st sid).2 = true ∧
    (sessionsContains st.sessions sid = true →
      sessionsContains ((cleanup_session st sid).1).sessions sid = false ∧
      ((cleanup_session st sid).1).dirs sid = false) ∧
    cleanup_session ((cleanup_session st sid).1) sid =
      ((cleanup_session st sid).1, true) := by
  refine ⟨?_, ?_, ?_⟩
  · unfold cleanup_session
    split_ifs <;> rfl
  · intro hpresent
    exact ⟨cleanup_session_contains_false st sid,
      by simp [cleanup_session, hpresent]⟩
  · exact cleanup_session_absent _ sid (cleanup_session_contains_false st sid)

/-- Witness for C6 at a store holding session `s1`. -/
theorem cleanup_session_idempotent_witness :
    sessionsContains storeEx1.sessions ("s1") = true ∧
    (sessionsContains ((cleanup_session storeEx1 ("s1")).1).sessions ("s1")
        = false ∧
      ((cleanup_session storeEx1 ("s1")).1).dirs ("s1") = false) ∧
    cleanup_session ((cleanup_session storeEx1 ("s1")).1) ("s1") =
      ((cleanup_session storeEx1 ("s1")).1, true) :=
  ⟨by decide,
    (cleanup_session_idempotent storeEx1 ("s1")).2.1 (by decide),
    (cleanup_session_idempotent storeEx1 ("s1")).2.2⟩

lemma foldCleanup_sessions (R : List String) (st : StoreState) :
    ((R.foldl (fun s sid => (cleanup_session s sid).1) st)).sessions =
      st.sessions.filter (fun p => !decide (p.1 ∈ R)) := by
  induction R generalizing st with
  | nil =>
    simp only [List.foldl_nil]
    have : ∀ p ∈ st.sessions, (!decide (p.1 ∈ ([] : List String))) = true := by
      simp
    rw [List.filter_eq_self.mpr this]
  | cons r R' ih =>
    simp only [List.foldl_cons]
    rw [ih, cleanup_session_sessions, List.filter_filter]
    refine List.filter_congr ?_
    intro p hp
    rcases Decidable.em (p.1 = r) with h | h <;>
      rcases Decidable.em (p.1 ∈ R') with h' | h' <;>
      simp [h, h', List.mem_cons]

lemma key_unique (l : List (String × SessionInfo))
    (h : (l.map Prod.fst).Nodup) :
    ∀ p ∈ l, ∀ q ∈ l, p.1 = q.1 → p = q := by
  induction l with
  | nil => intro p hp; simp at hp
  | cons a t ih =>
    intro p hp q hq hk
    simp only [List.map_cons, List.nodup_cons] at h
    rcases List.mem_cons.mp hp with hp1 | hp1 <;>
      rcases List.mem_cons.mp hq with hq1 | hq1
    · rw [hp1, hq1]
    · exfalso
      apply h.1
      rw [hp1] at hk
      exact hk ▸ List.mem_map_of_mem Prod.fst hq1
    · exfalso
      apply h.1
      rw [hq1] at hk
      exact hk.symm ▸ List.mem_map_of_mem Prod.fst hp1
    · exact ih h.2 p hp1 q hq1 hk

/-- C5: with distinct session keys, the expiry sweep removes a stored
session exactly when `now − created` strictly exceeds `max_age` (so a
session created at T survives a sweep at `T + max_age` but not one at
`T + max_age + 1`), and returns the number of sessions deleted. -/
theorem cleanup_old_sessions_expiry (st : StoreState) (now max_age : Int)
    (hnodup : (st.sessions.map Prod.fst).Nodup) :
    (∀ p ∈ st.sessions,
      (sessionsContains ((cleanup_old_sessions st now max_age).1).sessions
          p.1 = false ↔ max_age < now - p.2.created)) ∧
    (cleanup_old_sessions st now max_age).2 =
      st.sessions.countP (fun p => decide (max_age < now - p.2.created)) := by
  set old := fun p : String × SessionInfo =>
    decide (max_age < now - p.2.created) with hold
  set R := (st.sessions.filter old).map Prod.fst with hR
  have hsessions :
      ((cleanup_old_sessions st now max_age).1).sessions =
        st.sessions.filter (fun p => !decide (p.1 ∈ R)) := by
    rw [cleanup_old_sessions]
    exact foldCleanup_sessions R st
  constructor
  · intro p hp
    constructor
    · intro hgone
      by_contra hnotold
      have hnotR : p.1 ∉ R := by
        intro hmem
        rcases List.mem_map.mp hmem with ⟨q, hq, hqk⟩
        have hq1 : q ∈ st.sessions := List.mem_of_mem_filter hq
        have hq2 : old q = true := List.of_mem_filter hq
        have : q = p := key_unique st.sessions hnodup q hq1 p hp hqk
        rw [this] at hq2
        rw [hold] at hq2
        simp at hq2
        exact hnotold hq2
      have hstay : p ∈ st.sessions.filter (fun p => !decide (p.1 ∈ R)) :=
        List.mem_filter.mpr ⟨hp, by simp [hnotR]⟩
      rw [hsessions] at hgone
      simp only [sessionsContains, List.any_eq_false] at hgone
      have := hgone p hstay
      simp at this
    · intro hage
      rw [hsessions]
      have hinR : p.1 ∈ R := by
        rw [hR]
        exact List.mem_map_of_mem Prod.fst
          (List.mem_filter.mpr ⟨hp, by simp [hold, hage]⟩)
      simp only [sessionsContains, List.any_eq_false]
      intro q hq
      have hq2 := List.of_mem_filter hq
      simp only [Bool.not_eq_true'] at hq2
      intro hqk
      simp only [decide_eq_true_eq] at hqk
      rw [hqk] at hq2
      simp [hinR] at hq2
  · rw [cleanup_old_sessions]
    simp only [List.length_map]
    rw [List.countP_eq_length_filter]

/-- Witness for C5: sessions created at 0 and 100; a sweep at
`now = 7201` with `max_age = 7200` deletes the first (age 7201 > 7200),
keeps the second (age 7101 ≤ 7200), and reports one deletion. -/
theorem cleanup_old_sessions_expiry_witness :
    ((storeExpiry.sessions.map Prod.fst).Nodup) ∧
    (∀ p ∈ storeExpiry.sessions,
      (sessionsContains
          ((cleanup_old_sessions storeExpiry 7201 7200).1).sessions
          p.1 = false ↔ (7200 : Int) < 7201 - p.2.created)) ∧
    (cleanup_old_sessions storeExpiry 7201 7200).2 =
      storeExpiry.sessions.countP
        (fun p => decide ((7200 : Int) < 7201 - p.2.created)) :=
  ⟨by decide,
    (cleanup_old_sessions_expiry storeExpiry 7201 7200 (by decide)).1,
    (cleanup_old_sessions_expiry storeExpiry 7201 7200 (by decide)).2⟩

lemma find?_append_none {α : Type} (l1 l2 : List α) (p : α → Bool)
    (h : ∀ a ∈ l1, p a = false) : (l1 ++ l2).find? p = l2.find? p := by
  induction l1 with
  | nil => simp
  | cons a t ih =>
    have ha := h a (by simp)
    simp only [List.cons_append, List.find?_cons, ha]
    exact ih (fun b hb => h b (by simp [hb]))

/-- Counterexample to C7: uploading to a session id that is absent from the
store does not fail with NotFound — it succeeds and creates the session
with the image stored. -/
theorem store_temporary_image_absent_succeeds :
    sessionsContains emptyStore.sessions ("s1") = false ∧
    (store_temporary_image emptyStore ("s1") ("a1") ("m") 0).2 =
      ApiResult.ok (imagePath ("s1") ("a1")) ∧
    sessionsFind
        ((store_temporary_image emptyStore ("s1") ("a1") ("m") 0).1).sessions
        ("s1") =
      some ⟨0, [⟨"a1", imagePath ("s1") ("a1"), "m", 0,
        none, none, none, none, none⟩], none⟩ := by
  decide

/-- C7 as amended: for a session id absent from the store (ids non-empty),
`store_temporary_image` succeeds, creating a fresh session entry —
timestamped now, `pdf_name = None` — whose image list holds exactly the
new record, and creating the session directory on disk. -/
theorem store_temporary_image_absent_amended (st : StoreState)
    (sid iid meta_str : String) (now : Int)
    (hsid : sid ≠ "") (hiid : iid ≠ "")
    (habsent : sessionsContains st.sessions sid = false) :
    (store_temporary_image st sid iid meta_str now).2 =
      ApiResult.ok (imagePath sid iid) ∧
    sessionsFind ((store_temporary_image st sid iid meta_str now).1).sessions
        sid =
      some ⟨now, [⟨iid, imagePath sid iid, meta_str, now,
        none, none, none, none, none⟩], none⟩ ∧
    ((store_temporary_image st sid iid meta_str now).1).dirs sid = true := by
  have hcond : ¬(sid = "" ∨ iid = "") := by simp [hsid, hiid]
  refine ⟨by simp [store_temporary_image, hcond], ?_,
    by simp [store_temporary_image, hcond]⟩
  have hsessions :
      ((store_temporary_image st sid iid meta_str now).1).sessions =
        st.sessions.map (fun p : String × SessionInfo =>
          if p.1 = sid then
            (p.1, (⟨p.2.created, p.2.images ++
              [⟨iid, imagePath sid iid, meta_str, now,
                none, none, none, none, none⟩], p.2.pdf_name⟩ : SessionInfo))
          else p) ++
        [(sid, (⟨now, [⟨iid, imagePath sid iid, meta_str, now,
          none, none, none, none, none⟩], none⟩ : SessionInfo))] := by
    simp [store_temporary_image, hcond, habsent]
  rw [hsessions, sessionsFind]
  have hkeys : ∀ p ∈ st.sessions, p.1 ≠ sid := by
    intro p hp
    simp only [sessionsContains, List.any_eq_false] at habsent
    simpa using habsent p hp
  rw [find?_append_none]
  · simp
  · intro a ha
    rcases List.mem_map.mp ha with ⟨q, hq, hqa⟩
    have hk : a.1 = q.1 := by
      rw [← hqa]
      split_ifs <;> rfl
    have : q.1 ≠ sid := hkeys q hq
    simp [hk, this]

/-- Witness for the amended C7, at the empty store. -/
theorem store_temporary_image_absent_amended_witness :
    sessionsContains emptyStore.sessions ("s9") = false ∧
    ((store_temporary_image emptyStore ("s9") ("b1") ("m") 3).2 =
      ApiResult.ok (imagePath ("s9") ("b1")) ∧
    sessionsFind
        ((store_temporary_image emptyStore ("s9") ("b1") ("m") 3).1).sessions
        ("s9") =
      some ⟨3, [⟨"b1", imagePath ("s9") ("b1"), "m", 3,
        none, none, none, none, none⟩], none⟩ ∧
    ((store_temporary_image emptyStore ("s9") ("b1") ("m") 3).1).dirs ("s9")
      = true) :=
  ⟨by decide,
    store_temporary_image_absent_amended emptyStore ("s9") ("b1") ("m") 3
      (by decide) (by decide) (by decide)⟩

/-- C8 (documenting the code bug at a failing input): with session `s1`
present but image id `nope` absent — and likewise with the session itself
absent — `process_image` surfaces HTTP status 500, not the NotFound 404
that the raise site writes (the blanket `except Exception` catches the
framework's own `HTTPException(404)` and re-raises it with status 500);
the session's image records are left unchanged in both cases. -/
theorem process_image_notfound_surfaces_500 :
    (process_image envEx storeEx1 ("s1") ("nope") none true 5).2.2 =
      ApiResult.error 500 ∧
    ¬ (process_image envEx storeEx1 ("s1") ("nope") none true 5).2.2 =
      ApiResult.error 404 ∧
    ((process_image envEx storeEx1 ("s1") ("nope") none true 5).2.1).sessions
      = storeEx1.sessions ∧
    (process_image envEx storeEx1 ("zz") ("a1") none true 5).2.2 =
      ApiResult.error 500 ∧
    ((process_image envEx storeEx1 ("zz") ("a1") none true 5).2.1).sessions
      = storeEx1.sessions := by
  decide

/-- Counterexample to C9: the store performs no duplicate check, so
uploading the same image id twice into one session yields a session
listing in which that id appears twice. -/
theorem image_ids_duplicate_counterexample :
    (sessionsFind
      ((store_temporary_image
        ((store_temporary_image emptyStore ("s1") ("a1") ("m") 0).1)
        ("s1") ("a1") ("m") 1).1).sessions ("s1")).map
          (fun s => s.images.map ImageRecord.id) =
      some ["a1", "a1"] := by
  decide

lemma updateFirstImage_map_id (images : List ImageRecord) (iid : String)
    (f : ImageRecord → ImageRecord) (hf : ∀ img, (f img).id = img.id) :
    (updateFirstImage images iid f).map ImageRecord.id =
      images.map ImageRecord.id := by
  induction images with
  | nil => rfl
  | cons a t ih =>
    simp only [updateFirstImage]
    split_ifs with h
    · simp [hf a]
    · simp [ih]

lemma updateFirstImage_map_id_fields (images : List ImageRecord)
    (iid : String) (pp tp : Option String) (pa : Option Int)
    (ta en : Option Bool) :
    (updateFirstImage images iid (fun img =>
      ⟨img.id, img.path, img.metadata, img.stored_at, pp, tp, pa, ta,
        en⟩)).map ImageRecord.id = images.map ImageRecord.id :=
  updateFirstImage_map_id images iid _ (fun _ => rfl)

lemma imagesIdsNodup_cleanup_session (st : StoreState)
    (inv : imagesIdsNodup st) (sid : String) :
    imagesIdsNodup (cleanup_session st sid).1 := by
  intro p hp
  rw [cleanup_session_sessions] at hp
  exact inv p (List.mem_of_mem_filter hp)

lemma imagesIdsNodup_fold (R : List String) (st : StoreState)
    (inv : imagesIdsNodup st) :
    imagesIdsNodup (R.foldl (fun s sid => (cleanup_session s sid).1) st) := by
  induction R generalizing st with
  | nil => exact inv
  | cons r R' ih => exact ih _ (imagesIdsNodup_cleanup_session st inv r)

lemma imagesIdsNodup_store (st : StoreState) (inv : imagesIdsNodup st)
    (sid iid meta_str : String) (now : Int)
    (hfresh : ∀ s ∈ st.sessions, s.1 = sid → ∀ r ∈ s.2.images, r.id ≠ iid) :
    imagesIdsNodup (store_temporary_image st sid iid meta_str now).1 := by
  by_cases hcond : (sid = "" ∨ iid = "")
  · simp only [store_temporary_image, if_pos hcond]
    exact inv
  · intro p hp
    have happend : ∀ q : String × SessionInfo,
        q ∈ st.sessions ∨ q = (sid, ⟨now, [], none⟩) →
        q.1 = sid → ((q.2.images.map ImageRecord.id) ++ [iid]).Nodup := by
      intro q hq hk
      rcases hq with hq | hq
      · refine List.Nodup.append (inv q hq) (by simp) ?_
        intro a ha hb
        rcases List.mem_map.mp ha with ⟨r, hr, hra⟩
        have : a = iid := by simpa using hb
        exact hfresh q hq hk r hr (hra.trans this)
      · rw [hq]
        simp
    by_cases hc : sessionsContains st.sessions sid = true
    · simp only [store_temporary_image, if_neg hcond, if_pos hc] at hp
      rcases List.mem_map.mp hp with ⟨q, hq, hpq⟩
      by_cases hk : q.1 = sid
      · rw [← hpq]
        simp only [if_pos hk, List.map_append]
        simpa using happend q (Or.inl hq) hk
      · rw [← hpq]
        simp only [if_neg hk]
        exact inv q hq
    · have hcf : sessionsContains st.sessions sid = false := by simpa using hc
      simp only [store_temporary_image, if_neg hcond, hcf, Bool.false_eq_true,
        if_neg (by simp : ¬False)] at hp
      rcases List.mem_map.mp hp with ⟨q, hq, hpq⟩
      rcases List.mem_append.mp hq with hq1 | hq1
      · by_cases hk : q.1 = sid
        · rw [← hpq]
          simp only [if_pos hk, List.map_append]
          simpa using happend q (Or.inl hq1) hk
        · rw [← hpq]
          simp only [if_neg hk]
          exact inv q hq1
      · have hq2 : q = (sid, ⟨now, [], none⟩) := by simpa using hq1
        rw [← hpq, hq2]
        simp

lemma imagesIdsNodup_process (env : ImgEnv) (st : StoreState)
    (inv : imagesIdsNodup st) (sid iid : String) (ts : Option TrimSettings)
    (enh : Bool) (now : Int) :
    imagesIdsNodup (process_image env st sid iid ts enh now).2.1 := by
  cases hfind : sessionsFind st.sessions sid with
  | none => simpa only [process_image, hfind] using inv
  | some session =>
    cases himg : session.images.find? (fun img => decide (img.id = iid)) with
    | none => simpa only [process_image, hfind, himg] using inv
    | some image_info =>
      intro p hp
      simp only [process_image, hfind, himg] at hp
      rcases List.mem_map.mp hp with ⟨q, hq, hpq⟩
      by_cases hk : q.1 = sid
      · rw [← hpq]
        simp only [if_pos hk]
        rw [updateFirstImage_map_id_fields]
        obtain ⟨e, he, he2⟩ : ∃ e, st.sessions.find?
            (fun p => decide (p.1 = sid)) = some e ∧ e.2 = session := by
          unfold sessionsFind at hfind
          rcases hh : st.sessions.find? (fun p => decide (p.1 = sid)) with
            _ | e
          · rw [hh] at hfind
            simp at hfind
          · rw [hh] at hfind
            exact ⟨e, hh, by simpa using hfind⟩
        rw [← he2]
        exact inv e (List.mem_of_find?_eq_some he)
      · rw [← hpq]
        simp only [if_neg hk]
        exact inv q hq

/-- C9 as amended: image ids within a session stay pairwise distinct as
long as every upload into a session supplies an id not already present in
it — the store itself performs no deduplication; every other operation
(processing, explicit deletion, expiry sweep) preserves the uniqueness
invariant unconditionally. -/
theorem image_ids_unique_amended (st : StoreState) (inv : imagesIdsNodup st) :
    (∀ sid iid meta_str now,
      (∀ s ∈ st.sessions, s.1 = sid → ∀ r ∈ s.2.images, r.id ≠ iid) →
      imagesIdsNodup (store_temporary_image st sid iid meta_str now).1) ∧
    (∀ env sid iid ts enh now,
      imagesIdsNodup (process_image env st sid iid ts enh now).2.1) ∧
    (∀ sid, imagesIdsNodup (cleanup_session st sid).1) ∧
    (∀ now ma, imagesIdsNodup (cleanup_old_sessions st now ma).1) :=
  ⟨fun sid iid meta_str now hfresh =>
      imagesIdsNodup_store st inv sid iid meta_str now hfresh,
   fun env sid iid ts enh now =>
      imagesIdsNodup_process env st inv sid iid ts enh now,
   fun sid => imagesIdsNodup_cleanup_session st inv sid,
   fun now ma => imagesIdsNodup_fold _ st inv⟩

/-- Witness for the amended C9 at a concrete store: a fresh-id upload and a
session delete both keep ids unique. -/
theorem image_ids_unique_amended_witness :
    imagesIdsNodup storeEx1 ∧
    imagesIdsNodup (cleanup_session storeEx1 ("s1")).1 ∧
    imagesIdsNodup
      (store_temporary_image storeEx1 ("s1") ("b2") ("m") 4).1 :=
  ⟨by unfold imagesIdsNodup; decide,
    (image_ids_unique_amended storeEx1
      (by unfold imagesIdsNodup; decide)).2.2.1 "s1",
    (image_ids_unique_amended storeEx1
      (by unfold imagesIdsNodup; decide)).1 "s1" "b2" "m" 4
      (by decide)⟩

lemma sessionsFind_map_keyfix (l : List (String × SessionInfo))
    (sid : String) (g : String × SessionInfo → String × SessionInfo)
    (hg : ∀ p, (g p).1 = p.1) :
    sessionsFind (l.map g) sid =
      ((l.find? (fun p => decide (p.1 = sid))).map g).map Prod.snd := by
  unfold sessionsFind
  rw [List.find?_map]
  have hcomp : ((fun p : String × SessionInfo => decide (p.1 = sid)) ∘ g) =
      (fun p : String × SessionInfo => decide (p.1 = sid)) := by
    funext p
    simp [Function.comp, hg p]
  rw [hcomp]

/-- C10: uploading into an existing session rewrites only that session's
entry — its creation timestamp and `pdf_name` are kept, its image list
gains exactly the new record at the end — while every other session entry
is untouched, and the handler replies success with the stored path. -/
theorem store_temporary_image_frame (st : StoreState)
    (sid iid meta_str : String) (now : Int)
    (hsid : sid ≠ "") (hiid : iid ≠ "")
    (hpresent : sessionsContains st.sessions sid = true) :
    ((store_temporary_image st sid iid meta_str now).1).sessions =
      st.sessions.map (fun p : String × SessionInfo =>
        if p.1 = sid then
          (p.1, (⟨p.2.created, p.2.images ++ [⟨iid, imagePath sid iid,
            meta_str, now, none, none, none, none, none⟩],
            p.2.pdf_name⟩ : SessionInfo))
        else p) ∧
    sessionsFind ((store_temporary_image st sid iid meta_str now).1).sessions
        sid =
      (sessionsFind st.sessions sid).map (fun s =>
        (⟨s.created, s.images ++ [⟨iid, imagePath sid iid, meta_str, now,
          none, none, none, none, none⟩], s.pdf_name⟩ : SessionInfo)) ∧
    (store_temporary_image st sid iid meta_str now).2 =
      ApiResult.ok (imagePath sid iid) := by
  have hcond : ¬(sid = "" ∨ iid = "") := by simp [hsid, hiid]
  have hmap : ((store_temporary_image st sid iid meta_str now).1).sessions =
      st.sessions.map (fun p : String × SessionInfo =>
        if p.1 = sid then
          (p.1, (⟨p.2.created, p.2.images ++ [⟨iid, imagePath sid iid,
            meta_str, now, none, none, none, none, none⟩],
            p.2.pdf_name⟩ : SessionInfo))
        else p) := by
    simp [store_temporary_image, hcond, hpresent]
  refine ⟨hmap, ?_, by simp [store_temporary_image, hcond]⟩
  rw [hmap, sessionsFind_map_keyfix _ _ _ (fun p => by split_ifs <;> rfl)]
  unfold sessionsFind
  cases hh : st.sessions.find? (fun p => decide (p.1 = sid)) with
  | none => simp
  | some e =>
    have hkey : e.1 = sid := by
      have := List.find?_some hh
      simpa using this
    simp [hkey]

/-- Witness for C10 at a store whose session `s1` already holds `a1`: the
upload of `b2` appends to the list and changes nothing else. -/
theorem store_temporary_image_frame_witness :
    sessionsContains storeEx1.sessions ("s1") = true ∧
    (((store_temporary_image storeEx1 ("s1") ("b2") ("m") 4).1).sessions =
      storeEx1.sessions.map (fun p : String × SessionInfo =>
        if p.1 = "s1" then
          (p.1, (⟨p.2.created, p.2.images ++ [⟨"b2",
            imagePath ("s1") ("b2"), "m", 4,
            none, none, none, none, none⟩],
            p.2.pdf_name⟩ : SessionInfo))
        else p) ∧
    sessionsFind
        ((store_temporary_image storeEx1 ("s1") ("b2") ("m") 4).1).sessions
        ("s1") =
      (sessionsFind storeEx1.sessions ("s1")).map (fun s =>
        (⟨s.created, s.images ++ [⟨"b2", imagePath ("s1") ("b2"), "m", 4,
          none, none, none, none, none⟩], s.pdf_name⟩ : SessionInfo)) ∧
    (store_temporary_image storeEx1 ("s1") ("b2") ("m") 4).2 =
      ApiResult.ok (imagePath ("s1") ("b2"))) :=
  ⟨by decide,
    store_temporary_image_frame storeEx1 ("s1") ("b2") ("m") 4
      (by decide) (by decide) (by decide)⟩

end BookletDC
